import Mathlib

/-!
Shallow embedding of the core of the `gga_new` backend (an LLM-driven
diagram-generation pipeline) and proofs about its specified behaviour.

The embedding covers:
* the dual-layer chunker (`graphrag.py`, `_chunk_document_dual_layer`);
* the validate-revise loop (`api_server.py`, `run_code_revision_loop`);
* the knowledge graph and its mutators (`graphrag.py`: `_update_graph`,
  `_merge_nodes`, the stage-4 optimizer operations, `save_graph` and
  `load_graph`, and the retrieval entry `search`);
* the router experience store (`router.py`: `learn_from_success`,
  `_save_to_disk`; `rag.py`: `add_single_qa`).

Python floats (edge weights, node importance, similarity scores) are
modelled as rationals; Python sets of strings as `Finset String`;
Python dicts keyed by strings as association lists in insertion order,
matching the insertion-ordered iteration of `dict` and of `networkx`
node/edge views.  Fallible or external calls (LLM, embedder, HTTP
validator) are abstracted as explicit function parameters.
-/

namespace GGA

/-- Python's `range(0, stop, step)` for a positive step: the list
`[0, step, 2*step, ...]` of all multiples of `step` below `stop`. -/
def pyRange (stop step : Nat) : List Nat :=
  (List.range ((stop + step - 1) / step)).map (· * step)

/-- A text chunk as produced by `_chunk_document_dual_layer`: id,
text, and the starting offset inside the document (the offset is kept
so that theorems can speak about byte ranges; the Python dict stores
id/text/source). -/
structure Chunk where
  id : String
  text : List Char
  start : Nat
deriving DecidableEq

/-- The small-chunk loop of `_chunk_document_dual_layer`: window 500,
step `500 - 100`, id `"small_" ++ toString (i / 500)` where `i` is the
window's starting offset (the Python code divides by the chunk size,
not by the step). -/
def smallChunksOf (text : List Char) : List Chunk :=
  (pyRange text.length (500 - 100)).map (fun i =>
    { id := "small_" ++ toString (i / 500)
      text := (text.drop i).take 500
      start := i })

/-- The big-chunk loop of `_chunk_document_dual_layer`: window 1500,
step `1500 - 200`, id `"big_" ++ toString (i / 1500)`. -/
def bigChunksOf (text : List Char) : List Chunk :=
  (pyRange text.length (1500 - 200)).map (fun i =>
    { id := "big_" ++ toString (i / 1500)
      text := (text.drop i).take 1500
      start := i })

/-- Result of `quick_validate_mermaid` (`utils.py`): a `valid` flag and
an error message (empty when valid). -/
structure Validation where
  valid : Bool
  error : String
deriving DecidableEq

/-- One entry of the loop's `attempt_history`: the failing code and the
validation error it produced. -/
structure Attempt where
  code : String
  error : String
deriving DecidableEq

/-- What `run_code_revision_loop` produced: the final code, the residual
error (`None` on success), the accumulated `attempt_history`, the
arguments of the `record_mistake` call if one happened, the arguments of
the `learn_from_success` call if one happened, and how many times the
reviser was invoked. -/
structure LoopResult where
  code : String
  error : Option String
  history : List Attempt
  recorded : Option (Attempt × String)
  learned : Option (String × String)
  reviserCalls : Nat
deriving DecidableEq

/-- The success exit of the loop body: `record_mistake` fires when the
success happened on a revised attempt (`i > 0`) with a non-empty history
and a loaded reviser; `learn_from_success` fires when a router and a
user query are present. -/
def loopSuccessExit (reviserLoaded : Bool) (routerLoaded : Bool)
    (userQuery : Option String) (i : Nat) (code : String)
    (hist : List Attempt) (calls : Nat) : LoopResult :=
  { code := code
    error := none
    history := hist
    recorded :=
      if 0 < i ∧ hist ≠ [] ∧ reviserLoaded then
        match hist.getLast? with
        | some lastFail => some (lastFail, code)
        | none => none
      else none
    learned :=
      if routerLoaded then
        match userQuery with
        | some q => if q ≠ "" then some (q, code) else none
        | none => none
      else none
    reviserCalls := calls }

/-- One validate-revise step of `run_code_revision_loop`, indexed by the
attempt counter `i` (Python's `for i in range(max_retries + 1)` with
`max_retries = 3`); `fuel` is the number of loop iterations still
allowed and starts at `maxRetries + 1`. -/
def revisionGo (validate : String → Validation)
    (reviser : Option (String → String → List Attempt → String))
    (routerLoaded : Bool) (userQuery : Option String) (maxRetries : Nat) :
    Nat → Nat → String → List Attempt → Nat → LoopResult
  | 0, _, code, hist, calls =>
      -- unreachable: the loop always breaks at `i = maxRetries`
      { code := code, error := some "Not started", history := hist,
        recorded := none, learned := none, reviserCalls := calls }
  | fuel + 1, i, code, hist, calls =>
      let v := validate code
      if v.valid then
        loopSuccessExit reviser.isSome routerLoaded userQuery i code hist calls
      else if i = maxRetries then
        { code := code, error := some v.error, history := hist,
          recorded := none, learned := none, reviserCalls := calls }
      else
        let hist' := hist ++ [{ code := code, error := v.error }]
        match reviser with
        | some r =>
            revisionGo validate (some r) routerLoaded userQuery maxRetries
              fuel (i + 1) (r code v.error hist') hist' (calls + 1)
        | none =>
            { code := code, error := some v.error, history := hist',
              recorded := none, learned := none, reviserCalls := calls }

/-- `run_code_revision_loop` (`api_server.py`): validate, and on failure
revise up to `max_retries = 3` times; returns the final code together
with the residual error. -/
def runCodeRevisionLoop (validate : String → Validation)
    (reviser : Option (String → String → List Attempt → String))
    (routerLoaded : Bool) (userQuery : Option String)
    (initialCode : String) : LoopResult :=
  revisionGo validate reviser routerLoaded userQuery 3 4 0 initialCode [] 0

/-- Python's substring test `needle in hay` on the underlying character
lists: `startsList hay needle` says `needle` is a prefix of `hay`. -/
def startsList : List Char → List Char → Bool
  | _, [] => true
  | [], _ :: _ => false
  | a :: as, b :: bs => a == b && startsList as bs

/-- Python's substring test `needle in hay` for character lists. -/
def infixList : List Char → List Char → Bool
  | [], needle => needle.isEmpty
  | a :: as, needle => startsList (a :: as) needle || infixList as needle

/-- Python's `needle in hay` for strings. -/
def strContains (hay needle : String) : Bool :=
  infixList hay.data needle.data

/-- Node attributes of the knowledge graph (`graphrag.py`): description,
type tag (`backbone` / `intermediate` / `derived` / `inferred`),
provenance chunk-id set, and importance (a Python float, modelled as a
rational). -/
structure NodeData where
  description : String
  type : String
  source_chunks : Finset String
  importance : ℚ
deriving DecidableEq

/-- Edge attributes of the knowledge graph: description, weight and the
provenance chunk id of the latest write. -/
structure EdgeData where
  description : String
  weight : ℚ
  source_chunk_id : String
deriving DecidableEq

/-- The `networkx.DiGraph` of `LightGraphRAG`: nodes and edges as
association lists in insertion order (matching the insertion-ordered
iteration of `DiGraph`); at most one edge per ordered pair. -/
structure Graph where
  nodes : List (String × NodeData)
  edges : List ((String × String) × EdgeData)
deriving DecidableEq

def Graph.getNode (g : Graph) (id : String) : Option NodeData :=
  (g.nodes.find? (fun p => p.1 == id)).map (fun p => p.2)

def Graph.hasNode (g : Graph) (id : String) : Bool :=
  (g.getNode id).isSome

def Graph.addNode (g : Graph) (id : String) (d : NodeData) : Graph :=
  { g with nodes := g.nodes ++ [(id, d)] }

def Graph.setNode (g : Graph) (id : String) (d : NodeData) : Graph :=
  { g with nodes := g.nodes.map (fun p => if p.1 == id then (id, d) else p) }

def Graph.getEdge (g : Graph) (src dst : String) : Option EdgeData :=
  (g.edges.find? (fun p => p.1.1 == src && p.1.2 == dst)).map (fun p => p.2)

def Graph.hasEdge (g : Graph) (src dst : String) : Bool :=
  (g.getEdge src dst).isSome

def Graph.addEdge (g : Graph) (src dst : String) (d : EdgeData) : Graph :=
  { g with edges := g.edges ++ [((src, dst), d)] }

def Graph.setEdge (g : Graph) (src dst : String) (d : EdgeData) : Graph :=
  { g with edges := g.edges.map (fun p =>
      if p.1.1 == src && p.1.2 == dst then ((src, dst), d) else p) }

/-- `networkx.DiGraph.remove_node`: drops the node and every incident
edge. -/
def Graph.removeNode (g : Graph) (id : String) : Graph :=
  { nodes := g.nodes.filter (fun p => !(p.1 == id))
    edges := g.edges.filter (fun p => !(p.1.1 == id) && !(p.1.2 == id)) }

/-- In-memory state of `LightGraphRAG` relevant to the claims: the graph
plus the `graph_version` counter. -/
structure RAGState where
  graph : Graph
  version : Nat
deriving DecidableEq

/-- A node record of the LLM extraction payload (`data["nodes"]`): the
`desc` key may be absent. -/
structure RawNode where
  id : String
  desc : Option String
deriving DecidableEq

/-- An edge record of the LLM extraction payload (`data["edges"]`). -/
structure RawEdge where
  src : String
  dst : String
  desc : Option String
deriving DecidableEq

/-- The parsed LLM extraction payload consumed by `_update_graph`. -/
structure ExtractData where
  nodes : List RawNode
  edges : List RawEdge
deriving DecidableEq

/-- The node branch of `_update_graph`: skip empty ids; create missing
nodes; merge existing ones (add the chunk id to the provenance set when
non-empty, add the boost to the importance, keep the longer
description). -/
def processRawNode (g : Graph) (chunkId : String) (boost : ℚ)
    (nodeType : String) (n : RawNode) : Graph :=
  if n.id = "" then g else
  match g.getNode n.id with
  | none =>
      g.addNode n.id
        { description := n.desc.getD ""
          type := nodeType
          source_chunks := if chunkId ≠ "" then {chunkId} else ∅
          importance := boost }
  | some nd =>
      g.setNode n.id
        { description :=
            if nd.description.length < (n.desc.getD "").length then n.desc.getD ""
            else nd.description
          type := nd.type
          source_chunks :=
            if chunkId ≠ "" then insert chunkId nd.source_chunks
            else nd.source_chunks
          importance := nd.importance + boost }

/-- The endpoint auto-creation of `_update_graph`: a missing endpoint is
created as an `inferred` node with provenance `{chunk_id}` and
importance 1.0. -/
def ensureEndpoint (g : Graph) (chunkId : String) (pt : String) : Graph :=
  if g.hasNode pt then g
  else g.addNode pt
    { description := "Inferred", type := "inferred",
      source_chunks := {chunkId}, importance := 1 }

/-- The edge branch of `_update_graph`: skip edges with an empty
endpoint; auto-create missing endpoints; on an existing edge append the
new description unless it is already a substring, add the boost to the
weight, and overwrite `source_chunk_id` when the chunk id is non-empty;
otherwise add a fresh edge. -/
def processRawEdge (g : Graph) (chunkId : String) (boost : ℚ)
    (e : RawEdge) : Graph :=
  if e.src = "" ∨ e.dst = "" then g else
  let g1 := ensureEndpoint g chunkId e.src
  let g2 := ensureEndpoint g1 chunkId e.dst
  let desc := e.desc.getD "related"
  match g2.getEdge e.src e.dst with
  | some ed =>
      g2.setEdge e.src e.dst
        { description :=
            if strContains ed.description desc then ed.description
            else ed.description ++ " | " ++ desc
          weight := ed.weight + boost
          source_chunk_id := if chunkId ≠ "" then chunkId else ed.source_chunk_id }
  | none =>
      g2.addEdge e.src e.dst
        { description := desc, weight := boost, source_chunk_id := chunkId }

/-- `LightGraphRAG._update_graph`: merge an extraction payload into the
graph (nodes first, then edges) and increment `graph_version`. -/
def updateGraph (s : RAGState) (data : ExtractData) (chunkId : String)
    (boost : ℚ) (nodeType : String) : RAGState :=
  let g1 := data.nodes.foldl (fun g n => processRawNode g chunkId boost nodeType n) s.graph
  let g2 := data.edges.foldl (fun g e => processRawEdge g chunkId boost e) g1
  { graph := g2, version := s.version + 1 }

/-- One step of `_merge_nodes`'s out-edge transfer: the snapshot entry
`p` is an out-edge `src → nbr`; skip it when `nbr` is the target,
otherwise sum weights into an existing `tgt → nbr` edge or move the
edge data to `tgt → nbr`. -/
def transferOutStep (tgt : String) (g : Graph)
    (p : (String × String) × EdgeData) : Graph :=
  if p.1.2 == tgt then g
  else match g.getEdge tgt p.1.2 with
    | some ed => g.setEdge tgt p.1.2 { ed with weight := ed.weight + p.2.weight }
    | none => g.addEdge tgt p.1.2 p.2

/-- One step of `_merge_nodes`'s in-edge transfer: the snapshot entry
`p` is an in-edge `nbr → src`; skip it when `nbr` is the target,
otherwise sum weights into an existing `nbr → tgt` edge or move the
edge data to `nbr → tgt`. -/
def transferInStep (tgt : String) (g : Graph)
    (p : (String × String) × EdgeData) : Graph :=
  if p.1.1 == tgt then g
  else match g.getEdge p.1.1 tgt with
    | some ed => g.setEdge p.1.1 tgt { ed with weight := ed.weight + p.2.weight }
    | none => g.addEdge p.1.1 tgt p.2

/-- The node attributes of the merge target: provenance union, summed
importance, longer description, target's own type. -/
def mergedNodeData (srcNode tgtNode : NodeData) : NodeData :=
  { description :=
      if tgtNode.description.length < srcNode.description.length then
        srcNode.description
      else tgtNode.description
    type := tgtNode.type
    source_chunks := tgtNode.source_chunks ∪ srcNode.source_chunks
    importance := tgtNode.importance + srcNode.importance }

/-- The body of `_merge_nodes` once the pair has been oriented: merge
the attributes into the target, transfer the source's out-edges (from a
snapshot) and then its in-edges (from a fresh snapshot), and remove the
source node. -/
def mergeNodesCore (g : Graph) (src tgt : String)
    (srcNode tgtNode : NodeData) : Graph :=
  let gA := g.setNode tgt (mergedNodeData srcNode tgtNode)
  let outSnapshot := gA.edges.filter (fun p => p.1.1 == src)
  let gB := outSnapshot.foldl (transferOutStep tgt) gA
  let inSnapshot := gB.edges.filter (fun p => p.1.2 == src)
  let gC := inSnapshot.foldl (transferInStep tgt) gB
  gC.removeNode src

/-- `LightGraphRAG._merge_nodes`: merge `src` into `tgt` (swapping the
pair when `src` lies in the `backbone_nodes` set and `tgt` does not),
union provenance, add importances, keep the longer description, transfer
the source's in/out edges to the target (summing weights when the target
already has the edge), and finally remove the source node. -/
def Graph.mergeNodes (g : Graph) (src0 tgt0 : String) (bb : Finset String) : Graph :=
  if ¬ (g.hasNode src0 ∧ g.hasNode tgt0) then g else
  let src := if src0 ∈ bb ∧ tgt0 ∉ bb then tgt0 else src0
  let tgt := if src0 ∈ bb ∧ tgt0 ∉ bb then src0 else tgt0
  match g.getNode src, g.getNode tgt with
  | some srcNode, some tgtNode => mergeNodesCore g src tgt srcNode tgtNode
  | _, _ => g

/-- `_merge_nodes` viewed at the `LightGraphRAG` level: the method
mutates only `self.graph`; `graph_version` is not touched. -/
def mergeNodesState (s : RAGState) (src tgt : String) (bb : Finset String) : RAGState :=
  { s with graph := s.graph.mergeNodes src tgt bb }

/-- One optimizer operation returned by the stage-4 LLM call
(`_execute_optimization_prompt`); `unknown` stands for any other
`type` string, which the loop ignores. -/
inductive OptOp where
  | delete (nodes : List String)
  | merge (src tgt : String)
  | connect (src tgt : String) (desc : String) (weight : ℚ)
  | unknown
deriving DecidableEq

/-- The operation dispatch of `_execute_optimization_prompt`: `DELETE`
skips backbone members and missing nodes; `MERGE` delegates to
`_merge_nodes`; `CONNECT` adds (or, per `networkx`, overwrites) an edge
with provenance `"optimization"` when both endpoints exist. -/
def Graph.applyOptOp (g : Graph) (bb : Finset String) : OptOp → Graph
  | .delete ns =>
      ns.foldl (fun g n =>
        if n ∈ bb then g
        else if g.hasNode n then g.removeNode n else g) g
  | .merge s t => g.mergeNodes s t bb
  | .connect s t d w =>
      if g.hasNode s ∧ g.hasNode t then
        match g.getEdge s t with
        | some _ => g.setEdge s t { description := d, weight := w, source_chunk_id := "optimization" }
        | none => g.addEdge s t { description := d, weight := w, source_chunk_id := "optimization" }
      else g
  | .unknown => g

/-- The operation loop of `_execute_optimization_prompt`. -/
def executeOptimizationOps (g : Graph) (ops : List OptOp) (bb : Finset String) : Graph :=
  ops.foldl (fun g op => g.applyOptOp bb op) g

/-- One iteration tail of `_stage4_graph_optimization`: run the
optimization prompt's operations and then increment `graph_version`
(one increment for the whole batch). -/
def stage4ApplyIteration (s : RAGState) (ops : List OptOp) (bb : Finset String) : RAGState :=
  { graph := executeOptimizationOps s.graph ops bb, version := s.version + 1 }

/-- `networkx.isolates`: nodes with no incident edge. -/
def Graph.isolates (g : Graph) : List String :=
  (g.nodes.map (fun p => p.1)).filter (fun n =>
    !(g.edges.any (fun p => p.1.1 == n || p.1.2 == n)))

/-- `self.graph.remove_nodes_from(list(nx.isolates(self.graph)))` as it
appears twice in `_stage4_graph_optimization`; neither site touches
`graph_version`. -/
def removeIsolatesState (s : RAGState) : RAGState :=
  { s with graph := s.graph.isolates.foldl Graph.removeNode s.graph }

/-! ### Persistence (`save_graph` / `load_graph`) -/

/-- A node record of `graph.json`: `source_chunks` is serialized as a
JSON array (the Python code converts the set to a list before dumping;
we write the list in sorted order, one of the possible set iteration
orders). -/
structure SavedNode where
  id : String
  description : String
  type : String
  source_chunks : List String
  importance : ℚ
deriving DecidableEq

/-- An edge record of `graph.json`. -/
structure SavedEdge where
  src : String
  dst : String
  description : String
  weight : ℚ
  source_chunk_id : String
deriving DecidableEq

/-- The node-link payload written to `graph.json`. -/
structure SavedGraph where
  nodes : List SavedNode
  edges : List SavedEdge
deriving DecidableEq

/-- `LightGraphRAG.save_graph`: copy the graph, convert each node's
`source_chunks` set to a list, and dump the node-link data. -/
def saveGraph (g : Graph) : SavedGraph :=
  { nodes := g.nodes.map (fun p =>
      { id := p.1
        description := p.2.description
        type := p.2.type
        source_chunks := p.2.source_chunks.sort (· ≤ ·)
        importance := p.2.importance })
    edges := g.edges.map (fun p =>
      { src := p.1.1
        dst := p.1.2
        description := p.2.description
        weight := p.2.weight
        source_chunk_id := p.2.source_chunk_id }) }

/-- The graph-reconstruction part of `LightGraphRAG.load_graph`:
rebuild the directed graph from the node-link data and restore each
node's `source_chunks` list as a set and its importance as a float. -/
def decodeGraph (sg : SavedGraph) : Graph :=
  { nodes := sg.nodes.map (fun n =>
      (n.id,
       { description := n.description
         type := n.type
         source_chunks := n.source_chunks.toFinset
         importance := n.importance }))
    edges := sg.edges.map (fun e =>
      ((e.src, e.dst),
       { description := e.description
         weight := e.weight
         source_chunk_id := e.source_chunk_id })) }

/-- `load_graph` at the `LightGraphRAG` level: only `self.graph` is
reassigned; `graph_version` is left untouched. -/
def loadGraphState (s : RAGState) (file : SavedGraph) : RAGState :=
  { graph := decodeGraph file, version := s.version }

/-! ### Router experience store (`router.py`, `rag.py`) -/

/-- A record of the durable `router.json` store: `(q, a, source_code)`. -/
structure ExperienceRecord where
  q : String
  a : String
  source_code : String
deriving DecidableEq

/-- An entry of the experience vector index
(`LocalKnowledgeBase.collection`): a unique id (a uuid in Python,
modelled by a counter), the `original_q` metadata field, and the stored
payload `a`. -/
structure IndexEntry where
  entryId : Nat
  original_q : String
  payload : String
deriving DecidableEq

/-- The state touched by `RouterAgent.learn_from_success`: the durable
JSON store and the experience vector index. -/
structure ExperienceState where
  jsonStore : List ExperienceRecord
  index : List IndexEntry
  nextId : Nat
deriving DecidableEq

/-- `RouterAgent._save_to_disk`: append the new entry unless some
existing record has the same `q`. -/
def saveExperienceToDisk (store : List ExperienceRecord)
    (entry : ExperienceRecord) : List ExperienceRecord :=
  if store.any (fun r => r.q == entry.q) then store
  else store ++ [entry]

/-- `LocalKnowledgeBase.add_single_qa`: unconditionally insert a fresh
entry (fresh uuid id) with `original_q := q` and payload `a`. -/
def addSingleQa (st : ExperienceState) (q a : String) : ExperienceState :=
  { st with
    index := st.index ++ [{ entryId := st.nextId, original_q := q, payload := a }]
    nextId := st.nextId + 1 }

/-- The storage tail of `RouterAgent.learn_from_success` once the LLM
has extracted a non-empty pair `(q, a)` for code `code`: persist via
`_save_to_disk`, then hot-insert into the index via `add_single_qa`
(the insert is not guarded by the duplicate check). -/
def learnFromSuccessStore (st : ExperienceState) (q a code : String) :
    ExperienceState :=
  let st1 := { st with jsonStore := saveExperienceToDisk st.jsonStore ⟨q, a, code⟩ }
  addSingleQa st1 q a

/-! ### Retrieval (`LightGraphRAG.search`) -/

/-- Stable insertion preserving descending key order: a later element
goes after earlier elements with an equal key, matching Python's stable
`list.sort(..., reverse=True)`. -/
def insertDescBy {α β : Type} [LinearOrder β] (key : α → β) (x : α) :
    List α → List α
  | [] => [x]
  | y :: ys => if key x ≤ key y then y :: insertDescBy key x ys else x :: y :: ys

/-- Stable sort, descending by `key`. -/
def sortDescBy {α β : Type} [LinearOrder β] (key : α → β) (l : List α) : List α :=
  l.foldl (fun acc x => insertDescBy key x acc) []

/-- The early-exit string of `search` on an empty graph. -/
def emptyGraphMsg : String := "Knowledge Graph is empty."

/-- The empty-context string of `search` when no anchor clears the
similarity threshold. -/
def noAnchorsMsg : String := "No relevant concepts found in the Knowledge Graph."

/-- `_get_chunk_text_by_id`: empty ids resolve to nothing; otherwise
small chunks are searched before big chunks. -/
def getChunkTextById (smallChunks bigChunks : List Chunk) (cid : String) :
    Option (List Char) :=
  if cid = "" then none
  else match smallChunks.find? (fun c => c.id == cid) with
    | some c => some c.text
    | none =>
      match bigChunks.find? (fun c => c.id == cid) with
      | some c => some c.text
      | none => none

/-- Step 2 of `search` for one anchor: walk its successors and then its
predecessors, extending the subgraph node set and the edge-context
lines.  The state is `(subgraph nodes in first-visit order, edge
lines)`. -/
def expandAnchor (g : Graph) (st : List String × List String)
    (anchor : String) : List String × List String :=
  let stOut := g.edges.foldl (fun (st : List String × List String) p =>
      if p.1.1 == anchor then
        let nbr := p.1.2
        if st.1.contains nbr then st
        else (st.1 ++ [nbr],
              st.2 ++ ["• " ++ anchor ++ " -> " ++ nbr ++ ": " ++ p.2.description])
      else st) st
  g.edges.foldl (fun (st : List String × List String) p =>
      if p.1.2 == anchor then
        let nbr := p.1.1
        if st.1.contains nbr then st
        else (st.1 ++ [nbr],
              st.2 ++ ["• " ++ nbr ++ " -> " ++ anchor ++ ": " ++ p.2.description])
      else st) stOut

/-- The vote a chunk receives from one subgraph node in step 3 of
`search`: 1.0, plus 2.0 when the node is an anchor, plus 1.5 for a
small chunk or 0.5 for a big chunk. -/
def chunkVoteScore (anchorIds : List String) (node cid : String) : ℚ :=
  1 + (if anchorIds.contains node then 2 else 0)
    + (if cid.startsWith "small_" then (3 : ℚ) / 2
       else if cid.startsWith "big_" then (1 : ℚ) / 2 else 0)

/-- Add one vote into the tally, keeping first-seen chunk order. -/
def addVote (votes : List (String × ℚ)) (cid : String) (sc : ℚ) :
    List (String × ℚ) :=
  if votes.any (fun p => p.1 == cid) then
    votes.map (fun p => if p.1 == cid then (p.1, p.2 + sc) else p)
  else votes ++ [(cid, sc)]

/-- Record which subgraph entities voted for a chunk
(`chunk_to_entities`). -/
def addEntity (m : List (String × List String)) (cid node : String) :
    List (String × List String) :=
  if m.any (fun p => p.1 == cid) then
    m.map (fun p => if p.1 == cid then (p.1, p.2 ++ [node]) else p)
  else m ++ [(cid, [node])]

/-- Step 3 of `search`: every subgraph node votes for each of its
provenance chunks, skipping empty ids and the `"global_summary"`
sentinel.  Python iterates sets here; we fix the iteration order to
first-visit order for nodes and sorted order for the per-node chunk-id
set. -/
def chunkVoting (g : Graph) (anchorIds subgraphNodes : List String) :
    List (String × ℚ) × List (String × List String) :=
  subgraphNodes.foldl (fun acc node =>
    match g.getNode node with
    | none => acc
    | some nd =>
      (nd.source_chunks.sort (· ≤ ·)).foldl (fun acc cid =>
        if cid = "" ∨ cid = "global_summary" then acc
        else (addVote acc.1 cid (chunkVoteScore anchorIds node cid),
              addEntity acc.2 cid node)) acc)
    ([], [])

/-- Python's `f"{score:.2f}"` for the non-negative confidence scores of
`search`: two decimals, ties rounded to even.  (Python formats the
underlying binary double; on the rationals that appear here the decimal
rounding below agrees except at representation edge cases.) -/
def formatConf (q : ℚ) : String :=
  let scaled : ℚ := q * 100
  let fl : ℤ := ⌊scaled⌋
  let frac : ℚ := scaled - (fl : ℚ)
  let n : ℤ :=
    if frac < (1 : ℚ) / 2 then fl
    else if (1 : ℚ) / 2 < frac then fl + 1
    else if fl % 2 = 0 then fl else fl + 1
  let m : ℕ := n.toNat
  toString (m / 100) ++ "." ++ (if m % 100 < 10 then "0" else "") ++ toString (m % 100)

/-- Step 4 of `search`: assemble the three context sections from the
anchors, the edge-context lines, the vote tally and the chunk texts. -/
def assembleContext (smallChunks bigChunks : List Chunk) (topK : Nat)
    (topAnchors : List (ℚ × String × String)) (edgeContext : List String)
    (votes : List (String × ℚ)) (chunkEntities : List (String × List String)) :
    String :=
  let anchorIds := topAnchors.map (fun t => t.2.1)
  let sectionA :=
    ["### 🧠 Core Concepts & Definitions"] ++
    topAnchors.map (fun t =>
      "- **" ++ t.2.1 ++ "**: " ++ t.2.2 ++ " (Confidence: " ++ formatConf t.1 ++ ")")
  let sectionB :=
    ["\n### 🕸️ Graph Logic Pathways"] ++
    (if edgeContext ≠ [] then
      (sortDescBy String.length edgeContext.eraseDups).take 15
     else ["(No explicit relationships found in subgraph)"])
  let topChunkIds := ((sortDescBy (fun p => p.2) votes).take topK).map (fun p => p.1)
  let sectionC :=
    ["\n### 📖 Detailed Source Evidence"] ++
    topChunkIds.foldl (fun acc cid =>
      match getChunkTextById smallChunks bigChunks cid with
      | none => acc
      | some text =>
        let hitNodes := ((chunkEntities.find? (fun p => p.1 == cid)).map (fun p => p.2)).getD []
        let hitAnchors := hitNodes.filter (fun n => anchorIds.contains n)
        let otherHits := (hitNodes.filter (fun n => !(anchorIds.contains n))).take 5
        let header :=
          "**[Source ID: " ++ cid ++ "]**" ++
          (if hitAnchors ≠ [] then
            "\n*Key Anchors Hit*: " ++ String.intercalate ", " hitAnchors
           else "") ++
          (if otherHits ≠ [] then
            "\n*Related Entities*: " ++ String.intercalate ", " otherHits ++ "..."
           else "")
        acc ++ ["\n" ++ header, "```text\n" ++ String.mk text ++ "\n```", "---"]) []
  String.intercalate "\n" (sectionA ++ sectionB ++ sectionC)

/-- `LightGraphRAG.search`: the cosine similarity of the query against a
node's `"<id>: <description>"` embedding is abstracted as the oracle
`sim` (taking the node id and description).  Returns the empty-graph
string on an empty graph; keeps nodes whose score strictly exceeds 0.35,
takes the top five as anchors, and returns the no-anchor string when
none qualify; otherwise expands 1-hop, votes chunks and assembles the
context. -/
def search (g : Graph) (smallChunks bigChunks : List Chunk)
    (sim : String → String → ℚ) (topK : Nat) : String :=
  if g.nodes.isEmpty then emptyGraphMsg else
  let candidates :=
    (g.nodes.filter (fun p => (35 : ℚ) / 100 < sim p.1 p.2.description)).map
      (fun p => (sim p.1 p.2.description, p.1, p.2.description))
  let topAnchors := (sortDescBy (fun t => t.1) candidates).take 5
  let anchorIds := topAnchors.map (fun t => t.2.1)
  if anchorIds.isEmpty then noAnchorsMsg else
  let expanded := anchorIds.foldl (expandAnchor g) (anchorIds, [])
  let voted := chunkVoting g anchorIds expanded.1
  assembleContext smallChunks bigChunks topK topAnchors expanded.2 voted.1 voted.2

/-- The result of transferring one source-edge slot onto a target slot
during `_merge_nodes`: on collision the target keeps its description and
chunk id and the weights add; otherwise whichever edge exists survives
(the transferred edge keeps all its attributes). -/
def mergeEdgeOpt : Option EdgeData → Option EdgeData → Option EdgeData
  | some ea, some eb => some ⟨ea.description, ea.weight + eb.weight, ea.source_chunk_id⟩
  | some ea, none => some ea
  | none, some eb => some eb
  | none, none => none

/-! ### Concrete instances used by witnesses and counterexamples -/

/-- A concrete two-node knowledge-graph state at version 7, used to
exhibit the behaviour of `_merge_nodes` on the version counter. -/
def twoNodeStateV7 : RAGState :=
  ⟨⟨[("A", ⟨"a", "backbone", ∅, 1⟩), ("B", ⟨"b", "derived", ∅, 1⟩)],
    [(("A", "B"), ⟨"rel", 1, "c1"⟩)]⟩, 7⟩

/-- The backbone set containing only node `B`. -/
def backboneOnlyB : Finset String := {"B"}

/-- The experience state reached by learning the same `(q, a, code)`
pair twice starting from an empty store. -/
def doubleLearnState : ExperienceState :=
  learnFromSuccessStore (learnFromSuccessStore ⟨[], [], 0⟩ "q1" "a1" "code1")
    "q1" "a1" "code1"

/-- A graph whose node `A` has `type = backbone` while sitting outside
the backbone component: the optimizer's `backbone_nodes` set (the
largest weakly-connected component) contains only the `derived` node
`B`. -/
def backboneTypedFragmentGraph : Graph :=
  ⟨[("A", ⟨"a-node", "backbone", ∅, 1⟩), ("B", ⟨"b-node", "derived", ∅, 1⟩)], []⟩

/-- A three-node graph used to exercise a merge with out-edge collision
and in-edge transfer: `A → C` and `B → C` collide; `C → B` transfers. -/
def mergeWitnessGraph : Graph :=
  ⟨[("A", ⟨"alpha", "backbone", {"c1"}, 2⟩),
    ("B", ⟨"beta-has-longer-desc", "derived", {"c2"}, 3⟩),
    ("C", ⟨"gamma", "derived", ∅, 1⟩)],
   [(("A", "C"), ⟨"ac", 1, "x"⟩),
    (("B", "C"), ⟨"bc", 2, "y"⟩),
    (("C", "B"), ⟨"cb", 4, "z"⟩)]⟩

/-- The backbone set containing only node `A`. -/
def backboneOnlyA : Finset String := {"A"}

/-- A one-node graph used to exercise the retriever's below-threshold
branch. -/
def singleNodeGraph : Graph := ⟨[("N", ⟨"d", "derived", ∅, 1⟩)], []⟩

/-- A two-node graph with edges in both directions, used to exercise a
self-merge. -/
def selfMergeWitnessGraph : Graph :=
  ⟨[("N", ⟨"n", "derived", ∅, 1⟩), ("M", ⟨"m", "derived", ∅, 1⟩)],
   [(("N", "M"), ⟨"r1", 1, "c"⟩), (("M", "N"), ⟨"r2", 1, "c"⟩)]⟩

/-! ## Helper lemmas -/

lemma getNode_removeNode_self (g : Graph) (id : String) :
    (g.removeNode id).getNode id = none := by
  have hfind : (List.filter (fun p => !(p.1 == id)) g.nodes).find?
      (fun p => p.1 == id) = none := by
    rw [List.find?_eq_none]
    intro x hx
    have hx2 := (List.mem_filter.mp hx).2
    simpa using hx2
  simp [Graph.getNode, Graph.removeNode, hfind]

lemma hasNode_removeNode_self (g : Graph) (id : String) :
    (g.removeNode id).hasNode id = false := by
  simp [Graph.hasNode, getNode_removeNode_self]

lemma getEdge_removeNode_incident (g : Graph) (id s t : String)
    (h : s = id ∨ t = id) :
    (g.removeNode id).getEdge s t = none := by
  have hfind : (List.filter (fun p => !(p.1.1 == id) && !(p.1.2 == id)) g.edges).find?
      (fun p => p.1.1 == s && p.1.2 == t) = none := by
    rw [List.find?_eq_none]
    intro x hx
    have hx2 := (List.mem_filter.mp hx).2
    simp only [Bool.and_eq_true, Bool.not_eq_true', beq_eq_false_iff_ne] at hx2
    rcases h with h | h <;> subst h <;> simp [hx2.1, hx2.2]
  simp [Graph.getEdge, Graph.removeNode, hfind]

lemma startsList_nil (l : List Char) : startsList l [] = true := by
  cases l <;> rfl

lemma startsList_append (l m : List Char) : startsList (l ++ m) l = true := by
  induction l with
  | nil => simpa using startsList_nil m
  | cons a as ih => simp [startsList, ih]

lemma infixList_self (l : List Char) : infixList l l = true := by
  cases l with
  | nil => rfl
  | cons a as =>
    have := startsList_append (a :: as) []
    simp only [List.append_nil] at this
    simp [infixList, this]

lemma infixList_append_left (l m : List Char) : infixList (l ++ m) l = true := by
  cases l with
  | nil => cases m <;> simp [infixList, startsList]
  | cons a as => simp [infixList, startsList, startsList_append]

lemma infixList_append_right (l m : List Char) : infixList (l ++ m) m = true := by
  induction l with
  | nil => simpa using infixList_self m
  | cons a as ih => simp [infixList, ih]

lemma strContains_self (s : String) : strContains s s = true :=
  infixList_self s.data

lemma strContains_append_left (s t : String) : strContains (s ++ t) s = true := by
  unfold strContains
  rw [String.data_append]
  exact infixList_append_left s.data t.data

lemma strContains_append_right (s t : String) : strContains (s ++ t) t = true := by
  unfold strContains
  rw [String.data_append]
  exact infixList_append_right s.data t.data

lemma ensureEndpoint_edges (g : Graph) (c p : String) :
    (ensureEndpoint g c p).edges = g.edges := by
  unfold ensureEndpoint
  split <;> rfl

lemma getEdge_ensureEndpoint (g : Graph) (c p s t : String) :
    (ensureEndpoint g c p).getEdge s t = g.getEdge s t := by
  simp [Graph.getEdge, ensureEndpoint_edges]

/-- `processRawEdge` on a fresh edge appends it with the given
description, weight and chunk id. -/
lemma processRawEdge_new (g : Graph) (x y d c : String) (w : ℚ)
    (hx : x ≠ "") (hy : y ≠ "") (hne : g.getEdge x y = none) :
    (processRawEdge g c w ⟨x, y, some d⟩).edges
      = g.edges ++ [((x, y), ⟨d, w, c⟩)] := by
  unfold processRawEdge
  rw [if_neg (by simp [hx, hy])]
  have h2 : (ensureEndpoint (ensureEndpoint g c x) c y).getEdge x y = none := by
    rw [getEdge_ensureEndpoint, getEdge_ensureEndpoint]
    exact hne
  simp only [h2, Option.getD_some, Graph.addEdge, ensureEndpoint_edges]

/-- `processRawEdge` on an existing edge rewrites it in place: append
the new description unless already contained, add the weight boost,
overwrite the chunk id when non-empty. -/
lemma processRawEdge_existing (g : Graph) (x y d c : String) (w : ℚ)
    (ed : EdgeData) (hx : x ≠ "") (hy : y ≠ "") (hex : g.getEdge x y = some ed) :
    (processRawEdge g c w ⟨x, y, some d⟩).edges
      = g.edges.map (fun p =>
          if p.1.1 == x && p.1.2 == y then
            ((x, y),
             ⟨if strContains ed.description d then ed.description
               else ed.description ++ " | " ++ d,
              ed.weight + w,
              if c ≠ "" then c else ed.source_chunk_id⟩)
          else p) := by
  unfold processRawEdge
  rw [if_neg (by simp [hx, hy])]
  have h2 : (ensureEndpoint (ensureEndpoint g c x) c y).getEdge x y = some ed := by
    rw [getEdge_ensureEndpoint, getEdge_ensureEndpoint]
    exact hex
  simp only [h2, Option.getD_some, Graph.setEdge, ensureEndpoint_edges]

lemma find?_filter_of_imp {α : Type} (p q : α → Bool) (l : List α)
    (h : ∀ x, p x = true → q x = true) :
    (l.filter q).find? p = l.find? p := by
  induction l with
  | nil => rfl
  | cons x xs ih =>
    by_cases hq : q x = true
    · rw [List.filter_cons_of_pos hq]
      by_cases hp : p x = true
      · rw [List.find?_cons_of_pos _ hp, List.find?_cons_of_pos _ hp]
      · rw [List.find?_cons_of_neg _ hp, List.find?_cons_of_neg _ hp, ih]
    · have hp : ¬ p x = true := fun hpx => hq (h x hpx)
      rw [List.filter_cons_of_neg hq, ih, List.find?_cons_of_neg _ hp]

/-- Updating every `pr`-matching entry of a list to the fixed
`pr`-matching value `z` makes the first `pr`-match `z`. -/
lemma find?_update_eq {α : Type} (pr : α → Bool) (z : α) (l : List α)
    (hz : pr z = true) :
    (l.map (fun a => if pr a then z else a)).find? pr
      = (l.find? pr).map (fun _ => z) := by
  induction l with
  | nil => rfl
  | cons e es ih =>
    by_cases he : pr e = true
    · rw [List.map_cons, if_pos he, List.find?_cons_of_pos _ hz,
        List.find?_cons_of_pos _ he, Option.map_some']
    · rw [List.map_cons, if_neg he, List.find?_cons_of_neg _ he,
        List.find?_cons_of_neg _ he, ih]

/-- Updating every `pr`-matching entry to a value that does not match
`pr'` leaves the first `pr'`-match unchanged, provided `pr`-matching
entries never match `pr'`. -/
lemma find?_update_ne {α : Type} (pr pr' : α → Bool) (z : α) (l : List α)
    (hz : ¬ pr' z = true) (himp : ∀ a, pr a = true → ¬ pr' a = true) :
    (l.map (fun a => if pr a then z else a)).find? pr' = l.find? pr' := by
  induction l with
  | nil => rfl
  | cons e es ih =>
    by_cases he : pr e = true
    · rw [List.map_cons, if_pos he, List.find?_cons_of_neg _ hz,
        List.find?_cons_of_neg _ (himp e he), ih]
    · rw [List.map_cons, if_neg he]
      by_cases he' : pr' e = true
      · rw [List.find?_cons_of_pos _ he', List.find?_cons_of_pos _ he']
      · rw [List.find?_cons_of_neg _ he', List.find?_cons_of_neg _ he', ih]

lemma nodes_setEdge (g : Graph) (s t : String) (d : EdgeData) :
    (g.setEdge s t d).nodes = g.nodes := rfl

lemma nodes_addEdge (g : Graph) (s t : String) (d : EdgeData) :
    (g.addEdge s t d).nodes = g.nodes := rfl

lemma edges_setNode (g : Graph) (id : String) (d : NodeData) :
    (g.setNode id d).edges = g.edges := rfl

lemma getEdge_setNode (g : Graph) (id : String) (d : NodeData) (x y : String) :
    (g.setNode id d).getEdge x y = g.getEdge x y := rfl

lemma getEdge_setEdge_self (g : Graph) (s t : String) (d : EdgeData) :
    (g.setEdge s t d).getEdge s t = (g.getEdge s t).map (fun _ => d) := by
  unfold Graph.getEdge Graph.setEdge
  rw [show (fun p : (String × String) × EdgeData =>
      if p.1.1 == s && p.1.2 == t then ((s, t), d) else p)
    = (fun p => if (fun q : (String × String) × EdgeData =>
        q.1.1 == s && q.1.2 == t) p then ((s, t), d) else p) from rfl]
  rw [find?_update_eq _ _ _ (by simp)]
  cases g.edges.find? (fun p => p.1.1 == s && p.1.2 == t) <;> rfl

lemma getEdge_setEdge_other (g : Graph) (s t x y : String) (d : EdgeData)
    (h : ¬ (x = s ∧ y = t)) :
    (g.setEdge s t d).getEdge x y = g.getEdge x y := by
  unfold Graph.getEdge Graph.setEdge
  rw [find?_update_ne (fun q : (String × String) × EdgeData => q.1.1 == s && q.1.2 == t)
      (fun q => q.1.1 == x && q.1.2 == y) ((s, t), d) g.edges ?_ ?_]
  · simp only [Bool.and_eq_true, beq_iff_eq, not_and]
    intro hs ht
    exact h ⟨hs.symm, ht.symm⟩
  · intro a ha
    simp only [Bool.and_eq_true, beq_iff_eq] at ha ⊢
    intro hcon
    exact h ⟨hcon.1.symm.trans ha.1, hcon.2.symm.trans ha.2⟩

lemma getEdge_addEdge_other (g : Graph) (s t x y : String) (d : EdgeData)
    (h : ¬ (x = s ∧ y = t)) :
    (g.addEdge s t d).getEdge x y = g.getEdge x y := by
  unfold Graph.getEdge Graph.addEdge
  simp only [List.find?_append]
  rw [List.find?_singleton]
  have hkey : ¬ ((((s, t), d).1.1 == x && ((s, t), d).1.2 == y) = true) := by
    simp only [Bool.and_eq_true, beq_iff_eq, not_and]
    intro hs ht
    exact h ⟨hs.symm, ht.symm⟩
  rw [if_neg hkey]
  cases g.edges.find? (fun p => p.1.1 == x && p.1.2 == y) <;> rfl

lemma getEdge_addEdge_self (g : Graph) (s t : String) (d : EdgeData)
    (h : g.getEdge s t = none) :
    (g.addEdge s t d).getEdge s t = some d := by
  unfold Graph.getEdge Graph.addEdge
  unfold Graph.getEdge at h
  have hfind : g.edges.find? (fun p => p.1.1 == s && p.1.2 == t) = none :=
    Option.map_eq_none'.mp h
  simp only [List.find?_append, hfind, Option.none_or]
  rw [List.find?_singleton]
  simp

lemma getNode_setNode_self (g : Graph) (id : String) (d : NodeData) :
    (g.setNode id d).getNode id = (g.getNode id).map (fun _ => d) := by
  unfold Graph.getNode Graph.setNode
  rw [show (fun p : String × NodeData => if p.1 == id then (id, d) else p)
    = (fun p => if (fun q : String × NodeData => q.1 == id) p then (id, d) else p)
    from rfl]
  rw [find?_update_eq _ _ _ (by simp)]
  cases g.nodes.find? (fun p => p.1 == id) <;> rfl

lemma getNode_removeNode_other (g : Graph) (id x : String) (h : x ≠ id) :
    (g.removeNode id).getNode x = g.getNode x := by
  unfold Graph.getNode Graph.removeNode
  rw [find?_filter_of_imp]
  intro p hp
  simp only [beq_iff_eq] at hp
  simp [hp, h]

lemma getEdge_removeNode_other (g : Graph) (id x y : String)
    (hx : x ≠ id) (hy : y ≠ id) :
    (g.removeNode id).getEdge x y = g.getEdge x y := by
  unfold Graph.getEdge Graph.removeNode
  rw [find?_filter_of_imp]
  intro p hp
  simp only [Bool.and_eq_true, beq_iff_eq] at hp
  simp [hp.1, hp.2, hx, hy]

lemma nodes_transferOutStep (tgt : String) (g : Graph)
    (p : (String × String) × EdgeData) :
    (transferOutStep tgt g p).nodes = g.nodes := by
  unfold transferOutStep
  by_cases hskip : (p.1.2 == tgt) = true
  · rw [if_pos hskip]
  · rw [if_neg hskip]
    cases g.getEdge tgt p.1.2 <;> rfl

lemma nodes_transferInStep (tgt : String) (g : Graph)
    (p : (String × String) × EdgeData) :
    (transferInStep tgt g p).nodes = g.nodes := by
  unfold transferInStep
  by_cases hskip : (p.1.1 == tgt) = true
  · rw [if_pos hskip]
  · rw [if_neg hskip]
    cases g.getEdge p.1.1 tgt <;> rfl

lemma nodes_outFold (tgt : String) (L : List ((String × String) × EdgeData))
    (g : Graph) : (L.foldl (transferOutStep tgt) g).nodes = g.nodes := by
  induction L generalizing g with
  | nil => rfl
  | cons p ps ih => rw [List.foldl_cons, ih, nodes_transferOutStep]

lemma nodes_inFold (tgt : String) (L : List ((String × String) × EdgeData))
    (g : Graph) : (L.foldl (transferInStep tgt) g).nodes = g.nodes := by
  induction L generalizing g with
  | nil => rfl
  | cons p ps ih => rw [List.foldl_cons, ih, nodes_transferInStep]

lemma getEdge_transferOutStep_other (tgt : String) (g : Graph)
    (p : (String × String) × EdgeData) (x y : String)
    (h : ¬ (x = tgt ∧ y = p.1.2)) :
    (transferOutStep tgt g p).getEdge x y = g.getEdge x y := by
  unfold transferOutStep
  by_cases hskip : (p.1.2 == tgt) = true
  · rw [if_pos hskip]
  · rw [if_neg hskip]
    cases hge : g.getEdge tgt p.1.2 with
    | some ed => exact getEdge_setEdge_other _ _ _ _ _ _ h
    | none => exact getEdge_addEdge_other _ _ _ _ _ _ h

lemma getEdge_transferInStep_other (tgt : String) (g : Graph)
    (p : (String × String) × EdgeData) (x y : String)
    (h : ¬ (y = tgt ∧ x = p.1.1)) :
    (transferInStep tgt g p).getEdge x y = g.getEdge x y := by
  unfold transferInStep
  by_cases hskip : (p.1.1 == tgt) = true
  · rw [if_pos hskip]
  · rw [if_neg hskip]
    cases hge : g.getEdge p.1.1 tgt with
    | some ed => exact getEdge_setEdge_other _ _ _ _ _ _ (fun hc => h ⟨hc.2, hc.1⟩)
    | none => exact getEdge_addEdge_other _ _ _ _ _ _ (fun hc => h ⟨hc.2, hc.1⟩)

lemma getEdge_outFold_frame (tgt : String) (L : List ((String × String) × EdgeData))
    (g : Graph) (x y : String) (h : ∀ p ∈ L, ¬ (x = tgt ∧ y = p.1.2)) :
    (L.foldl (transferOutStep tgt) g).getEdge x y = g.getEdge x y := by
  induction L generalizing g with
  | nil => rfl
  | cons p ps ih =>
    rw [List.foldl_cons, ih _ (fun q hq => h q (List.mem_cons_of_mem _ hq)),
      getEdge_transferOutStep_other _ _ _ _ _ (h p (List.mem_cons_self _ _))]

lemma getEdge_inFold_frame (tgt : String) (L : List ((String × String) × EdgeData))
    (g : Graph) (x y : String) (h : ∀ p ∈ L, ¬ (y = tgt ∧ x = p.1.1)) :
    (L.foldl (transferInStep tgt) g).getEdge x y = g.getEdge x y := by
  induction L generalizing g with
  | nil => rfl
  | cons p ps ih =>
    rw [List.foldl_cons, ih _ (fun q hq => h q (List.mem_cons_of_mem _ hq)),
      getEdge_transferInStep_other _ _ _ _ _ (h p (List.mem_cons_self _ _))]

lemma transferOutStep_action (tgt : String) (g : Graph)
    (p : (String × String) × EdgeData) (hne : ¬ (p.1.2 = tgt)) :
    (transferOutStep tgt g p).getEdge tgt p.1.2
      = mergeEdgeOpt (g.getEdge tgt p.1.2) (some p.2) := by
  unfold transferOutStep
  rw [if_neg (by simpa using hne)]
  cases hge : g.getEdge tgt p.1.2 with
  | some ed => rw [getEdge_setEdge_self, hge]; rfl
  | none => rw [getEdge_addEdge_self _ _ _ _ hge]; rfl

lemma transferInStep_action (tgt : String) (g : Graph)
    (p : (String × String) × EdgeData) (hne : ¬ (p.1.1 = tgt)) :
    (transferInStep tgt g p).getEdge p.1.1 tgt
      = mergeEdgeOpt (g.getEdge p.1.1 tgt) (some p.2) := by
  unfold transferInStep
  rw [if_neg (by simpa using hne)]
  cases hge : g.getEdge p.1.1 tgt with
  | some ed => rw [getEdge_setEdge_self, hge]; rfl
  | none => rw [getEdge_addEdge_self _ _ _ _ hge]; rfl

lemma outFold_action (tgt : String) (g : Graph)
    (L₁ L₂ : List ((String × String) × EdgeData)) (s c : String) (e : EdgeData)
    (hc : c ≠ tgt) (h₁ : ∀ p ∈ L₁, p.1.2 ≠ c) (h₂ : ∀ p ∈ L₂, p.1.2 ≠ c) :
    ((L₁ ++ ((s, c), e) :: L₂).foldl (transferOutStep tgt) g).getEdge tgt c
      = mergeEdgeOpt (g.getEdge tgt c) (some e) := by
  rw [List.foldl_append, List.foldl_cons]
  rw [getEdge_outFold_frame _ _ _ _ _ (fun p hp => by
    intro hcon
    exact h₂ p hp hcon.2.symm)]
  have hstep := transferOutStep_action tgt (L₁.foldl (transferOutStep tgt) g)
    ((s, c), e) (by simpa using hc)
  simp only at hstep
  rw [hstep, getEdge_outFold_frame _ _ _ _ _ (fun p hp => by
    intro hcon
    exact h₁ p hp hcon.2.symm)]

lemma inFold_action (tgt : String) (g : Graph)
    (L₁ L₂ : List ((String × String) × EdgeData)) (c s : String) (e : EdgeData)
    (hc : c ≠ tgt) (h₁ : ∀ p ∈ L₁, p.1.1 ≠ c) (h₂ : ∀ p ∈ L₂, p.1.1 ≠ c) :
    ((L₁ ++ ((c, s), e) :: L₂).foldl (transferInStep tgt) g).getEdge c tgt
      = mergeEdgeOpt (g.getEdge c tgt) (some e) := by
  rw [List.foldl_append, List.foldl_cons]
  rw [getEdge_inFold_frame _ _ _ _ _ (fun p hp => by
    intro hcon
    exact h₂ p hp hcon.2.symm)]
  have hstep := transferInStep_action tgt (L₁.foldl (transferInStep tgt) g)
    ((c, s), e) (by simpa using hc)
  simp only at hstep
  rw [hstep, getEdge_inFold_frame _ _ _ _ _ (fun p hp => by
    intro hcon
    exact h₁ p hp hcon.2.symm)]

lemma keys_setEdge (g : Graph) (s t : String) (d : EdgeData) :
    (g.setEdge s t d).edges.map (fun q => q.1) = g.edges.map (fun q => q.1) := by
  unfold Graph.setEdge
  simp only [List.map_map]
  apply List.map_congr_left
  intro p _
  rcases p with ⟨⟨u, v⟩, pd⟩
  by_cases hpred : ((u, v), pd).1.1 == s && ((u, v), pd).1.2 == t
  · simp only [Bool.and_eq_true, beq_iff_eq] at hpred
    simp [Function.comp, hpred.1, hpred.2]
  · simp only [Function.comp_apply]
    rw [if_neg hpred]

lemma getEdge_none_key_ne (g : Graph) (s t : String)
    (h : g.getEdge s t = none) :
    ∀ p ∈ g.edges, p.1 ≠ (s, t) := by
  intro p hp hkey
  have hfind : g.edges.find? (fun p => p.1.1 == s && p.1.2 == t) = none :=
    Option.map_eq_none'.mp h
  have := List.find?_eq_none.mp hfind p hp
  apply this
  rw [hkey]
  simp

lemma keysNodup_transferOutStep (tgt : String) (g : Graph)
    (p : (String × String) × EdgeData)
    (h : (g.edges.map (fun q => q.1)).Nodup) :
    ((transferOutStep tgt g p).edges.map (fun q => q.1)).Nodup := by
  unfold transferOutStep
  by_cases hskip : (p.1.2 == tgt) = true
  · rw [if_pos hskip]; exact h
  · rw [if_neg hskip]
    cases hge : g.getEdge tgt p.1.2 with
    | some ed => rw [keys_setEdge]; exact h
    | none =>
      unfold Graph.addEdge
      simp only [List.map_append, List.map_cons, List.map_nil]
      rw [List.nodup_append]
      refine ⟨h, List.nodup_singleton _, ?_⟩
      intro k hk hk2
      simp only [List.mem_singleton] at hk2
      obtain ⟨q, hq, hqk⟩ := List.mem_map.mp hk
      exact getEdge_none_key_ne g tgt p.1.2 hge q hq (hqk.trans hk2)

lemma keysNodup_transferInStep (tgt : String) (g : Graph)
    (p : (String × String) × EdgeData)
    (h : (g.edges.map (fun q => q.1)).Nodup) :
    ((transferInStep tgt g p).edges.map (fun q => q.1)).Nodup := by
  unfold transferInStep
  by_cases hskip : (p.1.1 == tgt) = true
  · rw [if_pos hskip]; exact h
  · rw [if_neg hskip]
    cases hge : g.getEdge p.1.1 tgt with
    | some ed => rw [keys_setEdge]; exact h
    | none =>
      unfold Graph.addEdge
      simp only [List.map_append, List.map_cons, List.map_nil]
      rw [List.nodup_append]
      refine ⟨h, List.nodup_singleton _, ?_⟩
      intro k hk hk2
      simp only [List.mem_singleton] at hk2
      obtain ⟨q, hq, hqk⟩ := List.mem_map.mp hk
      exact getEdge_none_key_ne g p.1.1 tgt hge q hq (hqk.trans hk2)

lemma keysNodup_outFold (tgt : String) (L : List ((String × String) × EdgeData))
    (g : Graph) (h : (g.edges.map (fun q => q.1)).Nodup) :
    ((L.foldl (transferOutStep tgt) g).edges.map (fun q => q.1)).Nodup := by
  induction L generalizing g with
  | nil => exact h
  | cons p ps ih =>
    rw [List.foldl_cons]
    exact ih _ (keysNodup_transferOutStep _ _ _ h)

/-- The entry found by a successful `getEdge b c` splits the out-edge
snapshot of `b` so that no other snapshot entry targets `c`. -/
lemma outSnapshot_split (g : Graph) (b c : String) (e : EdgeData)
    (hnd : (g.edges.map (fun q => q.1)).Nodup)
    (hge : g.getEdge b c = some e) :
    ∃ L₁ L₂, g.edges.filter (fun p => p.1.1 == b) = L₁ ++ ((b, c), e) :: L₂
      ∧ (∀ p ∈ L₁, p.1.2 ≠ c) ∧ (∀ p ∈ L₂, p.1.2 ≠ c) := by
  obtain ⟨q, hfq, hq2⟩ : ∃ q, g.edges.find?
      (fun p => p.1.1 == b && p.1.2 == c) = some q ∧ q.2 = e := by
    unfold Graph.getEdge at hge
    cases hf : g.edges.find? (fun p => p.1.1 == b && p.1.2 == c) with
    | none => rw [hf] at hge; simp at hge
    | some q => rw [hf] at hge; exact ⟨q, rfl, by simpa using hge⟩
  have hpred := List.find?_some hfq
  simp only [Bool.and_eq_true, beq_iff_eq] at hpred
  have hq : q = ((b, c), e) := by
    rcases q with ⟨⟨u, v⟩, qd⟩
    simp only at hpred hq2
    rw [hpred.1, hpred.2, hq2]
  have hmemE : ((b, c), e) ∈ g.edges := hq ▸ List.mem_of_find?_eq_some hfq
  have hmemL : ((b, c), e) ∈ g.edges.filter (fun p => p.1.1 == b) :=
    List.mem_filter.mpr ⟨hmemE, by simp⟩
  obtain ⟨L₁, L₂, hsplit⟩ := List.append_of_mem hmemL
  have hndL : ((g.edges.filter (fun p => p.1.1 == b)).map (fun q => q.1)).Nodup :=
    List.Nodup.sublist (List.Sublist.map _ (List.filter_sublist _)) hnd
  rw [hsplit, List.map_append, List.map_cons] at hndL
  rw [List.nodup_append] at hndL
  obtain ⟨hnd₁, hndc, hdisj⟩ := hndL
  have hnotin₁ : (b, c) ∉ L₁.map (fun q => q.1) :=
    fun hmem => hdisj hmem (List.mem_cons_self _ _)
  have hnotin₂ : (b, c) ∉ L₂.map (fun q => q.1) := (List.nodup_cons.mp hndc).1
  refine ⟨L₁, L₂, hsplit, ?_, ?_⟩
  · intro p hp hpc
    have hpL : p ∈ g.edges.filter (fun p => p.1.1 == b) := by
      rw [hsplit]; exact List.mem_append_left _ hp
    have hpb : p.1.1 = b := by simpa using (List.mem_filter.mp hpL).2
    apply hnotin₁
    have : p.1 = (b, c) := by
      rcases p with ⟨⟨u, v⟩, pd⟩
      simp only at hpb hpc
      rw [hpb, hpc]
    exact this ▸ List.mem_map_of_mem _ hp
  · intro p hp hpc
    have hpL : p ∈ g.edges.filter (fun p => p.1.1 == b) := by
      rw [hsplit]
      exact List.mem_append_right _ (List.mem_cons_of_mem _ hp)
    have hpb : p.1.1 = b := by simpa using (List.mem_filter.mp hpL).2
    apply hnotin₂
    have : p.1 = (b, c) := by
      rcases p with ⟨⟨u, v⟩, pd⟩
      simp only at hpb hpc
      rw [hpb, hpc]
    exact this ▸ List.mem_map_of_mem _ hp

/-- The entry found by a successful `getEdge c b` splits the in-edge
snapshot of `b` so that no other snapshot entry starts at `c`. -/
lemma inSnapshot_split (g : Graph) (c b : String) (e : EdgeData)
    (hnd : (g.edges.map (fun q => q.1)).Nodup)
    (hge : g.getEdge c b = some e) :
    ∃ L₁ L₂, g.edges.filter (fun p => p.1.2 == b) = L₁ ++ ((c, b), e) :: L₂
      ∧ (∀ p ∈ L₁, p.1.1 ≠ c) ∧ (∀ p ∈ L₂, p.1.1 ≠ c) := by
  obtain ⟨q, hfq, hq2⟩ : ∃ q, g.edges.find?
      (fun p => p.1.1 == c && p.1.2 == b) = some q ∧ q.2 = e := by
    unfold Graph.getEdge at hge
    cases hf : g.edges.find? (fun p => p.1.1 == c && p.1.2 == b) with
    | none => rw [hf] at hge; simp at hge
    | some q => rw [hf] at hge; exact ⟨q, rfl, by simpa using hge⟩
  have hpred := List.find?_some hfq
  simp only [Bool.and_eq_true, beq_iff_eq] at hpred
  have hq : q = ((c, b), e) := by
    rcases q with ⟨⟨u, v⟩, qd⟩
    simp only at hpred hq2
    rw [hpred.1, hpred.2, hq2]
  have hmemE : ((c, b), e) ∈ g.edges := hq ▸ List.mem_of_find?_eq_some hfq
  have hmemL : ((c, b), e) ∈ g.edges.filter (fun p => p.1.2 == b) :=
    List.mem_filter.mpr ⟨hmemE, by simp⟩
  obtain ⟨L₁, L₂, hsplit⟩ := List.append_of_mem hmemL
  have hndL : ((g.edges.filter (fun p => p.1.2 == b)).map (fun q => q.1)).Nodup :=
    List.Nodup.sublist (List.Sublist.map _ (List.filter_sublist _)) hnd
  rw [hsplit, List.map_append, List.map_cons] at hndL
  rw [List.nodup_append] at hndL
  obtain ⟨hnd₁, hndc, hdisj⟩ := hndL
  have hnotin₁ : (c, b) ∉ L₁.map (fun q => q.1) :=
    fun hmem => hdisj hmem (List.mem_cons_self _ _)
  have hnotin₂ : (c, b) ∉ L₂.map (fun q => q.1) := (List.nodup_cons.mp hndc).1
  refine ⟨L₁, L₂, hsplit, ?_, ?_⟩
  · intro p hp hpc
    have hpL : p ∈ g.edges.filter (fun p => p.1.2 == b) := by
      rw [hsplit]; exact List.mem_append_left _ hp
    have hpb : p.1.2 = b := by simpa using (List.mem_filter.mp hpL).2
    apply hnotin₁
    have : p.1 = (c, b) := by
      rcases p with ⟨⟨u, v⟩, pd⟩
      simp only at hpb hpc
      rw [hpb, hpc]
    exact this ▸ List.mem_map_of_mem _ hp
  · intro p hp hpc
    have hpL : p ∈ g.edges.filter (fun p => p.1.2 == b) := by
      rw [hsplit]
      exact List.mem_append_right _ (List.mem_cons_of_mem _ hp)
    have hpb : p.1.2 = b := by simpa using (List.mem_filter.mp hpL).2
    apply hnotin₂
    have : p.1 = (c, b) := by
      rcases p with ⟨⟨u, v⟩, pd⟩
      simp only at hpb hpc
      rw [hpb, hpc]
    exact this ▸ List.mem_map_of_mem _ hp

/-- When `b` has no `b → c` edge, no out-snapshot entry of `b` targets
`c`. -/
lemma outSnapshot_none (g : Graph) (b c : String)
    (hge : g.getEdge b c = none) :
    ∀ p ∈ g.edges.filter (fun p => p.1.1 == b), p.1.2 ≠ c := by
  intro p hp hpc
  have hm := List.mem_filter.mp hp
  have hpb : p.1.1 = b := by simpa using hm.2
  apply getEdge_none_key_ne g b c hge p hm.1
  rcases p with ⟨⟨u, v⟩, pd⟩
  simp only at hpb hpc
  rw [hpb, hpc]

/-- When no `c → b` edge exists, no in-snapshot entry of `b` starts at
`c`. -/
lemma inSnapshot_none (g : Graph) (c b : String)
    (hge : g.getEdge c b = none) :
    ∀ p ∈ g.edges.filter (fun p => p.1.2 == b), p.1.1 ≠ c := by
  intro p hp hpc
  have hm := List.mem_filter.mp hp
  have hpb : p.1.2 = b := by simpa using hm.2
  apply getEdge_none_key_ne g c b hge p hm.1
  rcases p with ⟨⟨u, v⟩, pd⟩
  simp only at hpb hpc
  rw [hpc, hpb]

lemma getNode_congr (g₁ g₂ : Graph) (h : g₁.nodes = g₂.nodes) (x : String) :
    g₁.getNode x = g₂.getNode x := by
  unfold Graph.getNode
  rw [h]

lemma mergeNodesCore_hasNode_src (g : Graph) (s t : String)
    (sn tn : NodeData) : (mergeNodesCore g s t sn tn).hasNode s = false := by
  unfold mergeNodesCore
  exact hasNode_removeNode_self _ _

/-- After `mergeNodesCore g src tgt`, the target carries the merged
attributes. -/
lemma mergeNodesCore_getNode_tgt (g : Graph) (b a : String)
    (db da : NodeData) (hab : a ≠ b) :
    (mergeNodesCore g b a db da).getNode a
      = (g.getNode a).map (fun _ => mergedNodeData db da) := by
  unfold mergeNodesCore
  set gA := g.setNode a (mergedNodeData db da) with hgA
  set outS := gA.edges.filter (fun p => p.1.1 == b) with houtS
  set gB := outS.foldl (transferOutStep a) gA with hgB
  set inS := gB.edges.filter (fun p => p.1.2 == b) with hinS
  set gC := inS.foldl (transferInStep a) gB with hgC
  rw [getNode_removeNode_other gC b a hab]
  have hnodes : gC.nodes = gA.nodes := by
    rw [hgC, nodes_inFold, hgB, nodes_outFold]
  rw [getNode_congr gC gA hnodes a, hgA, getNode_setNode_self]

/-- After `mergeNodesCore g b a`, for any third node `c` the `a → c`
slot holds the collision-merge of the previous `a → c` and `b → c`
edges. -/
lemma mergeNodesCore_getEdge_out (g : Graph) (b a : String)
    (db da : NodeData) (hnd : (g.edges.map (fun q => q.1)).Nodup)
    (hab : a ≠ b) (c : String) (hca : c ≠ a) (hcb : c ≠ b) :
    (mergeNodesCore g b a db da).getEdge a c
      = mergeEdgeOpt (g.getEdge a c) (g.getEdge b c) := by
  unfold mergeNodesCore
  set gA := g.setNode a (mergedNodeData db da) with hgA
  set outS := gA.edges.filter (fun p => p.1.1 == b) with houtS
  set gB := outS.foldl (transferOutStep a) gA with hgB
  set inS := gB.edges.filter (fun p => p.1.2 == b) with hinS
  set gC := inS.foldl (transferInStep a) gB with hgC
  rw [getEdge_removeNode_other gC b a c hab hcb]
  have hin : gC.getEdge a c = gB.getEdge a c := by
    rw [hgC]
    exact getEdge_inFold_frame a inS gB a c (fun p _ hcon => hca hcon.1)
  rw [hin]
  have hAeq : gA.getEdge a c = g.getEdge a c := rfl
  cases hbc : g.getEdge b c with
  | some eb =>
      obtain ⟨L₁, L₂, hsplit, h₁, h₂⟩ := outSnapshot_split g b c eb hnd hbc
      have houtS' : outS = L₁ ++ ((b, c), eb) :: L₂ := by
        rw [houtS]
        exact hsplit
      rw [hgB, houtS', outFold_action a gA L₁ L₂ b c eb hca h₁ h₂, hAeq]
  | none =>
      have hout : gB.getEdge a c = gA.getEdge a c := by
        rw [hgB]
        apply getEdge_outFold_frame
        intro p hp hcon
        exact outSnapshot_none g b c hbc p hp hcon.2.symm
      rw [hout, hAeq]
      cases g.getEdge a c <;> rfl

/-- After `mergeNodesCore g b a`, for any third node `c` the `c → a`
slot holds the collision-merge of the previous `c → a` and `c → b`
edges. -/
lemma mergeNodesCore_getEdge_in (g : Graph) (b a : String)
    (db da : NodeData) (hnd : (g.edges.map (fun q => q.1)).Nodup)
    (hab : a ≠ b) (c : String) (hca : c ≠ a) (hcb : c ≠ b) :
    (mergeNodesCore g b a db da).getEdge c a
      = mergeEdgeOpt (g.getEdge c a) (g.getEdge c b) := by
  unfold mergeNodesCore
  set gA := g.setNode a (mergedNodeData db da) with hgA
  set outS := gA.edges.filter (fun p => p.1.1 == b) with houtS
  set gB := outS.foldl (transferOutStep a) gA with hgB
  set inS := gB.edges.filter (fun p => p.1.2 == b) with hinS
  set gC := inS.foldl (transferInStep a) gB with hgC
  rw [getEdge_removeNode_other gC b c a hcb hab]
  have hGBca : gB.getEdge c a = g.getEdge c a := by
    rw [hgB]
    have := getEdge_outFold_frame a outS gA c a (fun p _ hcon => hca hcon.1)
    rw [this]
    rfl
  have hGBcb : gB.getEdge c b = g.getEdge c b := by
    rw [hgB]
    have := getEdge_outFold_frame a outS gA c b (fun p _ hcon => hca hcon.1)
    rw [this]
    rfl
  cases hcbE : g.getEdge c b with
  | some eb =>
      have hGBcb2 : gB.getEdge c b = some eb := by rw [hGBcb, hcbE]
      have hndB : ((gB.edges.map (fun q => q.1)).Nodup) := by
        rw [hgB]
        exact keysNodup_outFold a outS gA hnd
      obtain ⟨L₁, L₂, hsplit, h₁, h₂⟩ := inSnapshot_split gB c b eb hndB hGBcb2
      have hinS' : inS = L₁ ++ ((c, b), eb) :: L₂ := by
        rw [hinS]
        exact hsplit
      rw [hgC, hinS', inFold_action a gB L₁ L₂ c b eb hca h₁ h₂, hGBca]
  | none =>
      have hGBcb2 : gB.getEdge c b = none := by rw [hGBcb, hcbE]
      have hframe : gC.getEdge c a = gB.getEdge c a := by
        rw [hgC]
        apply getEdge_inFold_frame
        intro p hp hcon
        exact inSnapshot_none gB c b hGBcb2 p hp hcon.2.symm
      rw [hframe, hGBca]
      cases g.getEdge c a <;> rfl

/-! ## Theorems -/

/-- C1: for every input code that always fails validation and a reviser
that returns its input unchanged, `run_code_revision_loop` invokes the
reviser at most 3 times, terminates, and returns the original code with
the last validation error as residual error. -/
theorem C1_revision_loop_always_fail (validate : String → Validation)
    (r : String → String → List Attempt → String)
    (routerLoaded : Bool) (q : Option String) (code : String)
    (hv : ∀ c, (validate c).valid = false)
    (hr : ∀ c e h, r c e h = c) :
    (runCodeRevisionLoop validate (some r) routerLoaded q code).reviserCalls ≤ 3 ∧
    (runCodeRevisionLoop validate (some r) routerLoaded q code).code = code ∧
    (runCodeRevisionLoop validate (some r) routerLoaded q code).error
      = some (validate code).error := by
  simp [runCodeRevisionLoop, revisionGo, hv, hr]

/-- Witness for C1 at a concrete always-failing validator and the
identity reviser. -/
theorem C1_revision_loop_always_fail_witness :
    (runCodeRevisionLoop (fun _ => ⟨false, "boom"⟩) (some fun c _ _ => c)
        true (some "draw") "graph TD").reviserCalls ≤ 3 ∧
    (runCodeRevisionLoop (fun _ => ⟨false, "boom"⟩) (some fun c _ _ => c)
        true (some "draw") "graph TD").code = "graph TD" ∧
    (runCodeRevisionLoop (fun _ => ⟨false, "boom"⟩) (some fun c _ _ => c)
        true (some "draw") "graph TD").error = some "boom" :=
  C1_revision_loop_always_fail (fun _ => ⟨false, "boom"⟩) (fun c _ _ => c)
    true (some "draw") "graph TD" (fun _ => rfl) (fun _ _ _ => rfl)

/-- C2 counterexample: a run that succeeds after two revisions records
the last failed attempt, not the first one.  The validator accepts only
`"c2"`; the reviser maps `"c0"` to `"c1"` and everything else to
`"c2"`. -/
theorem C2_record_mistake_counterexample :
    (runCodeRevisionLoop
        (fun c => if c = "c2" then ⟨true, ""⟩ else ⟨false, "err_" ++ c⟩)
        (some fun c _ _ => if c = "c0" then "c1" else "c2")
        false none "c0").error = none ∧
    (runCodeRevisionLoop
        (fun c => if c = "c2" then ⟨true, ""⟩ else ⟨false, "err_" ++ c⟩)
        (some fun c _ _ => if c = "c0" then "c1" else "c2")
        false none "c0").history.head? = some ⟨"c0", "err_c0"⟩ ∧
    (runCodeRevisionLoop
        (fun c => if c = "c2" then ⟨true, ""⟩ else ⟨false, "err_" ++ c⟩)
        (some fun c _ _ => if c = "c0" then "c1" else "c2")
        false none "c0").recorded = some (⟨"c1", "err_c1"⟩, "c2") ∧
    (runCodeRevisionLoop
        (fun c => if c = "c2" then ⟨true, ""⟩ else ⟨false, "err_" ++ c⟩)
        (some fun c _ _ => if c = "c0" then "c1" else "c2")
        false none "c0").recorded ≠ some (⟨"c0", "err_c0"⟩, "c2") := by
  decide

/-- Invariant of `revisionGo` runs with a loaded reviser: starting from
an attempt counter that equals both the call count and the history
length, a successful exit after at least one reviser call records the
last history entry together with the final code. -/
lemma revisionGo_recorded_invariant (validate : String → Validation)
    (r : String → String → List Attempt → String)
    (routerLoaded : Bool) (q : Option String) :
    ∀ (fuel i : Nat) (code : String) (hist : List Attempt) (calls : Nat),
      calls = i → hist.length = i →
      (revisionGo validate (some r) routerLoaded q 3 fuel i code hist calls).error = none →
      (revisionGo validate (some r) routerLoaded q 3 fuel i code hist calls).reviserCalls ≠ 0 →
      (revisionGo validate (some r) routerLoaded q 3 fuel i code hist calls).history ≠ [] ∧
      (revisionGo validate (some r) routerLoaded q 3 fuel i code hist calls).recorded
        = ((revisionGo validate (some r) routerLoaded q 3 fuel i code hist calls).history.getLast?).map
            (fun lf =>
              (lf, (revisionGo validate (some r) routerLoaded q 3 fuel i code hist calls).code)) := by
  intro fuel
  induction fuel with
  | zero => intro i code hist calls _ _ herr; simp [revisionGo] at herr
  | succ n ih =>
    intro i code hist calls hci hhi herr hcalls
    by_cases hval : (validate code).valid
    · have hexit : revisionGo validate (some r) routerLoaded q 3 (n + 1) i code hist calls
          = loopSuccessExit true routerLoaded q i code hist calls := by
        simp [revisionGo, hval]
      rw [hexit] at herr hcalls ⊢
      have hcalls' : calls ≠ 0 := by simpa [loopSuccessExit] using hcalls
      have hi : 0 < i := by omega
      have hne : hist ≠ [] := by
        intro h
        rw [h] at hhi
        simp at hhi
        omega
      obtain ⟨lf, hlf⟩ : ∃ lf, hist.getLast? = some lf := by
        cases h : hist.getLast? with
        | none => exact absurd (List.getLast?_eq_none_iff.mp h) hne
        | some lf => exact ⟨lf, rfl⟩
      refine ⟨by simpa [loopSuccessExit] using hne, ?_⟩
      simp [loopSuccessExit, hi, hne, hlf]
    · by_cases hmax : i = 3
      · have : (revisionGo validate (some r) routerLoaded q 3 (n + 1) i code hist calls).error
            = some (validate code).error := by
          simp [revisionGo, hval, hmax]
        rw [this] at herr
        exact absurd herr (by simp)
      · have hstep : revisionGo validate (some r) routerLoaded q 3 (n + 1) i code hist calls
            = revisionGo validate (some r) routerLoaded q 3 n (i + 1)
                (r code (validate code).error (hist ++ [{ code := code, error := (validate code).error }]))
                (hist ++ [{ code := code, error := (validate code).error }]) (calls + 1) := by
          simp [revisionGo, hval, hmax]
        rw [hstep] at herr hcalls ⊢
        exact ih (i + 1) _ _ _ (by omega) (by simp [hhi]) herr hcalls

/-- C2 as amended: whenever the loop succeeds after at least one
reviser invocation, `record_mistake` receives the code and error of the
LAST failed attempt (`attempt_history[-1]`) together with the final
successful code. -/
theorem C2_record_mistake_last_fail (validate : String → Validation)
    (r : String → String → List Attempt → String)
    (routerLoaded : Bool) (q : Option String) (code : String)
    (hsucc : (runCodeRevisionLoop validate (some r) routerLoaded q code).error = none)
    (hrev : (runCodeRevisionLoop validate (some r) routerLoaded q code).reviserCalls ≠ 0) :
    (runCodeRevisionLoop validate (some r) routerLoaded q code).history ≠ [] ∧
    (runCodeRevisionLoop validate (some r) routerLoaded q code).recorded
      = ((runCodeRevisionLoop validate (some r) routerLoaded q code).history.getLast?).map
          (fun lf => (lf, (runCodeRevisionLoop validate (some r) routerLoaded q code).code)) :=
  revisionGo_recorded_invariant validate r routerLoaded q 4 0 code [] 0 rfl rfl hsucc hrev

/-- Witness for C2's amended theorem at the concrete two-revision run. -/
theorem C2_record_mistake_last_fail_witness :
    (runCodeRevisionLoop
        (fun c => if c = "c2" then ⟨true, ""⟩ else ⟨false, "err_" ++ c⟩)
        (some fun c _ _ => if c = "c0" then "c1" else "c2")
        false none "c0").history ≠ [] ∧
    (runCodeRevisionLoop
        (fun c => if c = "c2" then ⟨true, ""⟩ else ⟨false, "err_" ++ c⟩)
        (some fun c _ _ => if c = "c0" then "c1" else "c2")
        false none "c0").recorded
      = ((runCodeRevisionLoop
            (fun c => if c = "c2" then ⟨true, ""⟩ else ⟨false, "err_" ++ c⟩)
            (some fun c _ _ => if c = "c0" then "c1" else "c2")
            false none "c0").history.getLast?).map
          (fun lf => (lf, (runCodeRevisionLoop
              (fun c => if c = "c2" then ⟨true, ""⟩ else ⟨false, "err_" ++ c⟩)
              (some fun c _ _ => if c = "c0" then "c1" else "c2")
              false none "c0").code)) :=
  C2_record_mistake_last_fail
    (fun c => if c = "c2" then ⟨true, ""⟩ else ⟨false, "err_" ++ c⟩)
    (fun c _ _ => if c = "c0" then "c1" else "c2")
    false none "c0" (by decide) (by decide)

set_option maxRecDepth 8000 in
/-- C5: evaluating the small-chunk splitter on a 1100-character text.
The byte ranges are `[0,500)`, `[400,900)`, `[800,1100)` as the spec
says, but the ids come out as `small_0, small_0, small_1` (the code
divides the window offset by the chunk size 500 instead of the step
400), not the spec's consecutive `small_0, small_1, small_2`. -/
theorem C5_small_chunks_eval_len1100 :
    (smallChunksOf (List.replicate 1100 'a')).map
        (fun c => (c.id, c.start, c.text.length))
      = [("small_0", 0, 500), ("small_0", 400, 500), ("small_1", 800, 300)] := by
  decide

/-- C6 counterexample: `_merge_nodes` does not touch `graph_version`,
so after a node merge the version is not strictly greater than before
(here: a two-node graph at version 7 stays at version 7, even though
the merge does mutate the graph by removing a node). -/
theorem C6_merge_version_counterexample :
    ¬ (twoNodeStateV7.version
        < (mergeNodesState twoNodeStateV7 "A" "B" backboneOnlyB).version) := by
  decide

/-- C6 as amended: `_update_graph` increments `graph_version` once per
call, and each stage-4 optimization iteration increments it once after
applying its whole DELETE/MERGE/CONNECT batch; but an individual
`_merge_nodes` call and the isolated-node removals of stage 4 leave the
version unchanged. -/
theorem C6_version_increment_policy (s : RAGState) (data : ExtractData)
    (chunkId : String) (boost : ℚ) (nodeType : String) (ops : List OptOp)
    (bb : Finset String) (src tgt : String) :
    (updateGraph s data chunkId boost nodeType).version = s.version + 1 ∧
    (stage4ApplyIteration s ops bb).version = s.version + 1 ∧
    (mergeNodesState s src tgt bb).version = s.version ∧
    (removeIsolatesState s).version = s.version :=
  ⟨rfl, rfl, rfl, rfl⟩

/-- C7: `save_graph` followed by `load_graph` restores the graph
exactly (same nodes with equal description, type, provenance set and
importance; same edges with equal attributes) and leaves the version
counter unchanged (`load_graph` never reassigns `graph_version`). -/
theorem C7_save_load_roundtrip (s : RAGState) :
    loadGraphState s (saveGraph s.graph) = s := by
  obtain ⟨⟨nodes, edges⟩, version⟩ := s
  simp only [loadGraphState, saveGraph, decodeGraph, RAGState.mk.injEq, Graph.mk.injEq,
    List.map_map, and_true]
  constructor
  · refine List.map_id'' ?_ nodes
    intro p
    obtain ⟨id, d⟩ := p
    simp [Function.comp, Finset.sort_toFinset]
  · refine List.map_id'' ?_ edges
    intro p
    obtain ⟨⟨a, b⟩, d⟩ := p
    simp [Function.comp]

/-- C8 counterexample: learning the same `(q, a)` pair twice from an
empty store leaves one durable JSON record but TWO entries for `q` in
the experience vector index (`learn_from_success` calls
`add_single_qa` unconditionally, and `add_single_qa` inserts under a
fresh uuid without any duplicate check). -/
theorem C8_experience_add_twice_counterexample :
    (doubleLearnState.jsonStore.filter (fun r => r.q == "q1")).length = 1 ∧
    (doubleLearnState.index.filter (fun e => e.original_q == "q1")).length = 2 ∧
    ¬ ((doubleLearnState.index.filter (fun e => e.original_q == "q1")).length = 1) := by
  decide

/-- C8 as amended: adding the same experience pair `(q, a)` twice
leaves exactly one record keyed by `q` in the durable JSON store
(dedup by `q` in `_save_to_disk`), while the experience vector index
receives one new entry per add — two entries for `q` after the second
add; index duplicates are only removed lazily when a later search
discovers them. -/
theorem C8_experience_dedup_amended (st : ExperienceState) (q a code : String)
    (hjs : ∀ r ∈ st.jsonStore, r.q ≠ q)
    (hidx : ∀ e ∈ st.index, e.original_q ≠ q) :
    ((learnFromSuccessStore (learnFromSuccessStore st q a code) q a code).jsonStore.filter
        (fun r => r.q == q)).length = 1 ∧
    ((learnFromSuccessStore (learnFromSuccessStore st q a code) q a code).index.filter
        (fun e => e.original_q == q)).length = 2 := by
  have hany : st.jsonStore.any (fun r => r.q == q) = false := by
    rw [List.any_eq_false]
    intro r hr
    simpa using hjs r hr
  have hfilterJs : st.jsonStore.filter (fun r => r.q == q) = [] := by
    rw [List.filter_eq_nil_iff]
    intro r hr
    simpa using hjs r hr
  have hfilterIdx : st.index.filter (fun e => e.original_q == q) = [] := by
    rw [List.filter_eq_nil_iff]
    intro e he
    simpa using hidx e he
  have hany2 : (st.jsonStore ++ [(⟨q, a, code⟩ : ExperienceRecord)]).any
      (fun r => r.q == q) = true := by
    simp
  constructor
  · simp [learnFromSuccessStore, addSingleQa, saveExperienceToDisk, hany, hany2,
      List.filter_append, hfilterJs]
  · simp [learnFromSuccessStore, addSingleQa, saveExperienceToDisk, hany,
      List.filter_append, hfilterIdx]

/-- Witness for C8's amended theorem at the empty starting store. -/
theorem C8_experience_dedup_amended_witness :
    ((learnFromSuccessStore (learnFromSuccessStore ⟨[], [], 0⟩ "q1" "a1" "code1")
        "q1" "a1" "code1").jsonStore.filter (fun r => r.q == "q1")).length = 1 ∧
    ((learnFromSuccessStore (learnFromSuccessStore ⟨[], [], 0⟩ "q1" "a1" "code1")
        "q1" "a1" "code1").index.filter (fun e => e.original_q == "q1")).length = 2 :=
  C8_experience_dedup_amended ⟨[], [], 0⟩ "q1" "a1" "code1"
    (by intro r hr; simp at hr) (by intro e he; simp at he)

/-- C9: `search` returns the empty-graph string whenever the graph has
no nodes, and when the graph is non-empty but no node's similarity
score strictly exceeds the 0.35 anchor threshold it returns the
empty-context string (no exception is possible: the function is
total). -/
theorem C9_search_empty_and_no_anchor (g : Graph) (sc bc : List Chunk)
    (sim : String → String → ℚ) (k : Nat) :
    (g.nodes = [] → search g sc bc sim k = emptyGraphMsg) ∧
    (g.nodes ≠ [] →
      (∀ p ∈ g.nodes, ¬ ((35 : ℚ) / 100 < sim p.1 p.2.description)) →
      search g sc bc sim k = noAnchorsMsg) := by
  constructor
  · intro h
    simp [search, h]
  · intro hne hth
    have hfilter : g.nodes.filter
        (fun p => decide ((35 : ℚ) / 100 < sim p.1 p.2.description)) = [] := by
      rw [List.filter_eq_nil_iff]
      intro p hp
      simpa using hth p hp
    simp [search, List.isEmpty_iff, hne, hfilter, sortDescBy]

/-- Witness for C9: the empty graph, and a one-node graph whose only
similarity score equals the threshold exactly (and so does not clear
it). -/
theorem C9_search_empty_and_no_anchor_witness :
    search ⟨[], []⟩ [] [] (fun _ _ => (35 : ℚ) / 100) 3 = emptyGraphMsg ∧
    search singleNodeGraph [] [] (fun _ _ => (35 : ℚ) / 100) 3 = noAnchorsMsg :=
  ⟨(C9_search_empty_and_no_anchor ⟨[], []⟩ [] [] (fun _ _ => (35 : ℚ) / 100) 3).1 rfl,
   (C9_search_empty_and_no_anchor singleNodeGraph [] [] (fun _ _ => (35 : ℚ) / 100) 3).2
     (by decide) (fun p _ => lt_irrefl _)⟩

/-- C10: merging a present node with itself removes the node and all
its incident edges from the graph (the final `remove_node(src)` of
`_merge_nodes` executes with `src = tgt`), instead of leaving the
graph unchanged. -/
theorem C10_self_merge_deletes_node (g : Graph) (n : String) (bb : Finset String)
    (h : g.hasNode n = true) :
    (g.mergeNodes n n bb).hasNode n = false ∧
    (∀ x, (g.mergeNodes n n bb).getEdge n x = none) ∧
    (∀ x, (g.mergeNodes n n bb).getEdge x n = none) := by
  obtain ⟨nd, hnd⟩ : ∃ nd, g.getNode n = some nd := by
    unfold Graph.hasNode at h
    cases hg : g.getNode n with
    | none => rw [hg] at h; simp at h
    | some nd => exact ⟨nd, rfl⟩
  unfold Graph.mergeNodes
  rw [if_neg (by simp [Graph.hasNode, hnd])]
  simp only [ite_self, hnd]
  exact ⟨hasNode_removeNode_self _ _,
    fun x => getEdge_removeNode_incident _ _ _ _ (Or.inl rfl),
    fun x => getEdge_removeNode_incident _ _ _ _ (Or.inr rfl)⟩

/-- Witness for C10 at a concrete two-node graph with edges in both
directions. -/
theorem C10_self_merge_deletes_node_witness :
    (selfMergeWitnessGraph.mergeNodes "N" "N" ∅).hasNode "N" = false ∧
    (∀ x, (selfMergeWitnessGraph.mergeNodes "N" "N" ∅).getEdge "N" x = none) ∧
    (∀ x, (selfMergeWitnessGraph.mergeNodes "N" "N" ∅).getEdge x "N" = none) :=
  C10_self_merge_deletes_node selfMergeWitnessGraph "N" ∅ (by decide)

/-- C4: two successive edge upserts between `x` and `y` (starting from
a graph with no `x → y` edge and upserting through `_update_graph` with
descriptions `d1, d2`, chunk ids `c1, c2` and weight boosts `w1, w2`)
leave exactly one `x → y` edge; its description contains both `d1` and
`d2` as substrings (a description already contained is not duplicated),
its weight is `w1 + w2`, and its `source_chunk_id` is the chunk of the
latest write. -/
theorem C4_upsert_edge_twice_merges (s : RAGState)
    (x y d1 d2 c1 c2 nt1 nt2 : String) (w1 w2 : ℚ)
    (hx : x ≠ "") (hy : y ≠ "") (hc2 : c2 ≠ "")
    (hne : s.graph.hasEdge x y = false) :
    ((updateGraph (updateGraph s ⟨[], [⟨x, y, some d1⟩]⟩ c1 w1 nt1)
        ⟨[], [⟨x, y, some d2⟩]⟩ c2 w2 nt2).graph.edges.filter
      (fun p => p.1.1 == x && p.1.2 == y))
      = [((x, y),
          ⟨if strContains d1 d2 then d1 else d1 ++ " | " ++ d2, w1 + w2, c2⟩)] ∧
    strContains (if strContains d1 d2 then d1 else d1 ++ " | " ++ d2) d1 = true ∧
    strContains (if strContains d1 d2 then d1 else d1 ++ " | " ++ d2) d2 = true := by
  have hget : s.graph.getEdge x y = none := by
    unfold Graph.hasEdge at hne
    cases h : s.graph.getEdge x y with
    | none => rfl
    | some e => rw [h] at hne; simp at hne
  have hfind : s.graph.edges.find? (fun p => p.1.1 == x && p.1.2 == y) = none := by
    unfold Graph.getEdge at hget
    exact Option.map_eq_none'.mp hget
  have hkeys : ∀ p ∈ s.graph.edges, (p.1.1 == x && p.1.2 == y) = false := by
    intro p hp
    have := List.find?_eq_none.mp hfind p hp
    simpa using this
  have hE1 : (updateGraph s ⟨[], [⟨x, y, some d1⟩]⟩ c1 w1 nt1).graph.edges
      = s.graph.edges ++ [((x, y), ⟨d1, w1, c1⟩)] := by
    show (processRawEdge s.graph c1 w1 ⟨x, y, some d1⟩).edges = _
    exact processRawEdge_new s.graph x y d1 c1 w1 hx hy hget
  have hget1 : (updateGraph s ⟨[], [⟨x, y, some d1⟩]⟩ c1 w1 nt1).graph.getEdge x y
      = some ⟨d1, w1, c1⟩ := by
    unfold Graph.getEdge
    rw [hE1, List.find?_append, hfind]
    simp
  have hE2 : (updateGraph (updateGraph s ⟨[], [⟨x, y, some d1⟩]⟩ c1 w1 nt1)
      ⟨[], [⟨x, y, some d2⟩]⟩ c2 w2 nt2).graph.edges
      = ((updateGraph s ⟨[], [⟨x, y, some d1⟩]⟩ c1 w1 nt1).graph.edges).map
          (fun p =>
            if p.1.1 == x && p.1.2 == y then
              ((x, y),
               ⟨if strContains d1 d2 then d1 else d1 ++ " | " ++ d2,
                w1 + w2, if c2 ≠ "" then c2 else c1⟩)
            else p) := by
    show (processRawEdge (updateGraph s ⟨[], [⟨x, y, some d1⟩]⟩ c1 w1 nt1).graph
        c2 w2 ⟨x, y, some d2⟩).edges = _
    exact processRawEdge_existing _ x y d2 c2 w2 ⟨d1, w1, c1⟩ hx hy hget1
  refine ⟨?_, ?_, ?_⟩
  · rw [hE2, hE1, List.map_append, List.filter_append]
    have hmapid : (s.graph.edges).map
        (fun p =>
          if p.1.1 == x && p.1.2 == y then
            ((x, y),
             ⟨if strContains d1 d2 then d1 else d1 ++ " | " ++ d2,
              w1 + w2, if c2 ≠ "" then c2 else c1⟩)
          else p) = s.graph.edges := by
      refine (List.map_congr_left ?_).trans (List.map_id _)
      intro p hp
      simp [hkeys p hp]
    rw [hmapid]
    have hleft : (s.graph.edges).filter (fun p => p.1.1 == x && p.1.2 == y) = [] := by
      rw [List.filter_eq_nil_iff]
      intro p hp
      simp [hkeys p hp]
    rw [hleft]
    simp [hc2]
  · by_cases hcont : strContains d1 d2 = true
    · simp [hcont, strContains_self]
    · simp only [Bool.not_eq_true] at hcont
      rw [if_neg (by simp [hcont]), String.append_assoc]
      exact strContains_append_left d1 (" | " ++ d2)
  · by_cases hcont : strContains d1 d2 = true
    · simp [hcont]
    · simp only [Bool.not_eq_true] at hcont
      rw [if_neg (by simp [hcont])]
      exact strContains_append_right (d1 ++ " | ") d2

/-- Witness for C4: the S2 scenario — an empty graph, then
`upsert_edge("A","B","uses","c1",1.0)` and
`upsert_edge("A","B","invokes","c2",2.0)`. -/
theorem C4_upsert_edge_twice_merges_witness :
    ((updateGraph (updateGraph ⟨⟨[], []⟩, 0⟩ ⟨[], [⟨"A", "B", some "uses"⟩]⟩ "c1" 1 "derived")
        ⟨[], [⟨"A", "B", some "invokes"⟩]⟩ "c2" 2 "derived").graph.edges.filter
      (fun p => p.1.1 == "A" && p.1.2 == "B"))
      = [(("A", "B"),
          ⟨if strContains "uses" "invokes" then "uses" else "uses" ++ " | " ++ "invokes",
           1 + 2, "c2"⟩)] ∧
    strContains (if strContains "uses" "invokes" then "uses"
        else "uses" ++ " | " ++ "invokes") "uses" = true ∧
    strContains (if strContains "uses" "invokes" then "uses"
        else "uses" ++ " | " ++ "invokes") "invokes" = true :=
  C4_upsert_edge_twice_merges ⟨⟨[], []⟩, 0⟩ "A" "B" "uses" "invokes" "c1" "c2"
    "derived" "derived" 1 2 (by decide) (by decide) (by decide) (by decide)

/-- C3 counterexample: the protective swap of `_merge_nodes` is keyed
on membership in the `backbone_nodes` set argument, not on the node's
`type` attribute.  With `A.type = backbone`, `B.type = derived` but
`backbone_nodes = {B}` (a backbone-typed node can sit outside the
largest component), `merge_node(A, B)` removes `A` and keeps `B` —
the opposite of what the claim states. -/
theorem C3_merge_type_keyed_counterexample :
    (backboneTypedFragmentGraph.getNode "A").map (fun d => d.type)
        = some "backbone" ∧
    (backboneTypedFragmentGraph.getNode "B").map (fun d => d.type)
        = some "derived" ∧
    (backboneTypedFragmentGraph.mergeNodes "A" "B" backboneOnlyB).hasNode "A"
        = false ∧
    (backboneTypedFragmentGraph.mergeNodes "A" "B" backboneOnlyB).hasNode "B"
        = true := by
  decide

/-- C3 as amended: for every pair of existing nodes `a, b` with
`a ∈ backbone_nodes` and `b ∉ backbone_nodes` (membership in the set
passed by the optimizer — the largest weakly-connected component — is
what keys the protective swap, not the node's `type` attribute),
`merge_node(a, b)` leaves `a` in the graph, removes `b`, transfers
`b`'s in/out edges to `a` summing weights on collision, unions
`source_chunks`, and adds importance. -/
theorem C3_merge_backbone_set_protection (g : Graph) (a b : String)
    (bb : Finset String)
    (hndE : (g.edges.map (fun q => q.1)).Nodup)
    (ha : g.hasNode a = true) (hb : g.hasNode b = true) (hab : a ≠ b)
    (haIn : a ∈ bb) (hbOut : b ∉ bb) :
    (g.mergeNodes a b bb).hasNode a = true ∧
    (g.mergeNodes a b bb).hasNode b = false ∧
    (∀ da db, g.getNode a = some da → g.getNode b = some db →
      (g.mergeNodes a b bb).getNode a = some (mergedNodeData db da)) ∧
    (∀ c, c ≠ a → c ≠ b →
      (g.mergeNodes a b bb).getEdge a c
          = mergeEdgeOpt (g.getEdge a c) (g.getEdge b c) ∧
      (g.mergeNodes a b bb).getEdge c a
          = mergeEdgeOpt (g.getEdge c a) (g.getEdge c b)) := by
  obtain ⟨da, hda⟩ : ∃ da, g.getNode a = some da := by
    unfold Graph.hasNode at ha
    cases hg : g.getNode a with
    | none => rw [hg] at ha; simp at ha
    | some nd => exact ⟨nd, rfl⟩
  obtain ⟨db, hdb⟩ : ∃ db, g.getNode b = some db := by
    unfold Graph.hasNode at hb
    cases hg : g.getNode b with
    | none => rw [hg] at hb; simp at hb
    | some nd => exact ⟨nd, rfl⟩
  have hswap : a ∈ bb ∧ b ∉ bb := ⟨haIn, hbOut⟩
  have hEq : g.mergeNodes a b bb = mergeNodesCore g b a db da := by
    unfold Graph.mergeNodes
    rw [if_neg (by simp [ha, hb]), if_pos hswap, if_pos hswap]
    show (match g.getNode b, g.getNode a with
      | some srcNode, some tgtNode => mergeNodesCore g b a srcNode tgtNode
      | _, _ => g) = mergeNodesCore g b a db da
    rw [hdb, hda]
  refine ⟨?_, ?_, ?_, ?_⟩
  · rw [hEq]
    unfold Graph.hasNode
    rw [mergeNodesCore_getNode_tgt g b a db da hab, hda]
    rfl
  · rw [hEq]
    exact mergeNodesCore_hasNode_src g b a db da
  · intro da' db' hda' hdb'
    have hda2 : da' = da := by
      rw [hda] at hda'
      exact (Option.some_inj.mp hda').symm
    have hdb2 : db' = db := by
      rw [hdb] at hdb'
      exact (Option.some_inj.mp hdb').symm
    rw [hEq, hda2, hdb2, mergeNodesCore_getNode_tgt g b a db da hab, hda]
    rfl
  · intro c hca hcb
    exact ⟨by rw [hEq]; exact mergeNodesCore_getEdge_out g b a db da hndE hab c hca hcb,
           by rw [hEq]; exact mergeNodesCore_getEdge_in g b a db da hndE hab c hca hcb⟩

/-- Witness for C3's amended theorem on a three-node graph with an
out-edge collision (`A → C` meets transferred `B → C`) and an in-edge
transfer (`C → B` becomes `C → A`). -/
theorem C3_merge_backbone_set_protection_witness :
    (mergeWitnessGraph.mergeNodes "A" "B" backboneOnlyA).hasNode "A" = true ∧
    (mergeWitnessGraph.mergeNodes "A" "B" backboneOnlyA).hasNode "B" = false ∧
    (mergeWitnessGraph.mergeNodes "A" "B" backboneOnlyA).getNode "A"
      = some (mergedNodeData ⟨"beta-has-longer-desc", "derived", {"c2"}, 3⟩
          ⟨"alpha", "backbone", {"c1"}, 2⟩) ∧
    (mergeWitnessGraph.mergeNodes "A" "B" backboneOnlyA).getEdge "A" "C"
      = mergeEdgeOpt (mergeWitnessGraph.getEdge "A" "C")
          (mergeWitnessGraph.getEdge "B" "C") ∧
    (mergeWitnessGraph.mergeNodes "A" "B" backboneOnlyA).getEdge "C" "A"
      = mergeEdgeOpt (mergeWitnessGraph.getEdge "C" "A")
          (mergeWitnessGraph.getEdge "C" "B") := by
  have h := C3_merge_backbone_set_protection mergeWitnessGraph "A" "B" backboneOnlyA
    (by decide) (by decide) (by decide) (by decide) (by decide) (by decide)
  exact ⟨h.1, h.2.1,
    h.2.2.1 ⟨"alpha", "backbone", {"c1"}, 2⟩
      ⟨"beta-has-longer-desc", "derived", {"c2"}, 3⟩ rfl rfl,
    (h.2.2.2 "C" (by decide) (by decide)).1,
    (h.2.2.2 "C" (by decide) (by decide)).2⟩

end GGA
